import Mathlib

/-
Verification of the JSON-file-backed item store and its HTTP handlers
(`main.go`, final revision: `ReadJsonFile`, `WriteJsonFile`, `CreateJsonFile`,
`getItem`, `postItem`, `deleteItem`, `extractPathParameters`, `main`).

The Go program persists a collection of `Item{ID int; Name string}` records
as one JSON array in a single file.  Every handler reloads the whole file,
mutating handlers rewrite it in full, and a global `DatabaseMutex` guards
each load-mutate-save sequence.

Modelling choices:
  * `map[int]Item` is modelled as an association list keyed by `ID`
    (`ItemDict`); Go maps have unique keys, which the list model tracks via
    the `KeysNodup` predicate.  Go map iteration order is unspecified, so
    every theorem about serialization quantifies over all permutations of
    the entry list.
  * The file system state is `Option FileData`: `none` means the backing
    file is absent.  `FileData` distinguishes the zero-byte file produced
    by `os.Create` (`emptyFile`), a marshalled JSON array of items
    (`jsonArray`), and any other content that `json.Unmarshal` rejects
    (`malformed`).  `json.Unmarshal` fails on empty input, which is why
    `emptyFile` does not parse.
  * Handlers return the HTTP response, the new file state, and the trace of
    file operations they performed, so "no read/write happened" is stated
    as an empty trace.
  * The `DatabaseMutex` critical section of `postItem` is modelled as a
    two-thread interleaving machine (`ConcState`, `concStep`) whose steps
    are acquire / load / save / release, exactly the order the handler
    performs them in.
-/

deriving instance DecidableEq for Except

namespace GoApi

/-- Item is the stored record: Go struct `Item{ID int; Name string}`. -/
structure Item where
  ID : Int
  Name : String
deriving DecidableEq, Repr

/-- ItemDict models Go's `map[int]Item` as an association list whose key is
the `ID` field of each entry. -/
abbrev ItemDict := List Item

/-- dictLookup models a Go map read with presence check
(`it, ok := m[k]`): the first entry whose `ID` equals the key, if any. -/
def dictLookup : ItemDict → Int → Option Item
  | [], _ => none
  | it :: rest, k => if it.ID = k then some it else dictLookup rest k

/-- dictInsert models Go map assignment `m[it.ID] = it`: replace the entry
with the same key if present, otherwise add the entry. -/
def dictInsert : ItemDict → Item → ItemDict
  | [], it => [it]
  | x :: rest, it => if x.ID = it.ID then it :: rest else x :: dictInsert rest it

/-- dictErase models Go `delete(m, k)`: remove the entry with key `k`
(the first match in the list model; unique under `KeysNodup`). -/
def dictErase : ItemDict → Int → ItemDict
  | [], _ => []
  | x :: rest, k => if x.ID = k then rest else x :: dictErase rest k

/-- KeysNodup states that the association list has pairwise distinct keys,
the invariant every Go map holds by construction. -/
abbrev KeysNodup (d : ItemDict) : Prop := (d.map Item.ID).Nodup

/-- loadDict is the loop in `ReadJsonFile` that turns the parsed JSON array
into the map: `for _, item := range items { itemDict[item.ID] = item }`. -/
def loadDict (items : List Item) : ItemDict := items.foldl dictInsert []

/-- serializeDict is the loop in `WriteJsonFile` that turns the map back
into a slice: `for _, item := range *itemDict { items = append(items, item) }`.
Go iterates the map in an unspecified order; this model fixes one admissible
order (the list itself) and the round-trip theorem quantifies over all
permutations of it. -/
def serializeDict (d : ItemDict) : List Item := d

/-- FileData is the observable content of the backing file: the zero-byte
file `os.Create` produces, a marshalled JSON array of items, or any other
content (which `json.Unmarshal` rejects). -/
inductive FileData
  | emptyFile
  | jsonArray (items : List Item)
  | malformed
deriving DecidableEq, Repr

/-- DbError covers the two failure modes of the store: the `os.Open` error
when the file is absent, and the `json.Unmarshal` error on content that is
not a JSON array of items (empty input included). -/
inductive DbError
  | openErr
  | unmarshalErr
deriving DecidableEq, Repr

/-- readJsonFile models `ReadJsonFile`: open the file (fails when absent),
read all bytes, unmarshal them as a JSON array of items (fails on a
zero-byte file or malformed content), then build the map with `loadDict`. -/
def readJsonFile : Option FileData → Except DbError ItemDict
  | none => Except.error DbError.openErr
  | some FileData.emptyFile => Except.error DbError.unmarshalErr
  | some FileData.malformed => Except.error DbError.unmarshalErr
  | some (FileData.jsonArray items) => Except.ok (loadDict items)

/-- writeJsonFile models `WriteJsonFile`: marshal the map (iterated in some
order), then `os.Open` the existing file — if that fails (file absent) the
error is returned and nothing is created — otherwise overwrite the file
with the marshalled array via `os.WriteFile`.  Returns the call's result
and the file state afterwards. -/
def writeJsonFile (d : ItemDict) : Option FileData → Except DbError Unit × Option FileData
  | none => (Except.error DbError.openErr, none)
  | some _ => (Except.ok (), some (FileData.jsonArray (serializeDict d)))

/-- createJsonFile models `CreateJsonFile`: `os.Create` truncates or creates
the file, leaving a zero-byte file; nothing is written to it. -/
def createJsonFile : Option FileData → Option FileData :=
  fun _ => some FileData.emptyFile

/-- mainStartup models the startup check in `main`: when the backing file
does not exist, `CreateJsonFile` is called (a creation error panics, which
the model elides since the modelled file operation is total). -/
def mainStartup (fs : Option FileData) : Option FileData :=
  match fs with
  | none => createJsonFile none
  | some f => some f

/-- ParamErr covers the two failure modes of `extractPathParameters`: the
out-of-range error from `getNthPathSegment` and the `strconv.Atoi` syntax
error. -/
inductive ParamErr
  | indexOutOfRange
  | atoiSyntax
deriving DecidableEq, Repr

/-- splitSlash models Go `strings.Split(s, "/")`: the list of substrings
between consecutive separators, with empty substrings kept. -/
def splitSlash : List Char → List (List Char)
  | [] => [[]]
  | c :: rest =>
    let r := splitSlash rest
    if c = '/' then [] :: r
    else
      match r with
      | [] => [[c]]
      | h :: t => (c :: h) :: t

/-- getNthPathSegment models the Go helper of the same name: bounds-check
the index against the segment slice and return the segment. -/
def getNthPathSegment (pathSegments : List String) (n : Int) : Except ParamErr String :=
  if n < 0 ∨ (pathSegments.length : Int) ≤ n then Except.error ParamErr.indexOutOfRange
  else Except.ok (pathSegments.getD n.toNat "")

/-- digitsToNat is the value of a list of decimal digits. -/
def digitsToNat (cs : List Char) : Nat :=
  cs.foldl (fun acc c => acc * 10 + (c.toNat - 48)) 0

/-- atoi models `strconv.Atoi`: an optional single leading sign followed by
at least one ASCII digit; anything else is a syntax error.  (Go additionally
rejects values outside the 64-bit int range; no claim depends on that, and
the model keeps the mathematical integer.) -/
def atoi (s : String) : Except ParamErr Int :=
  match s.toList with
  | '+' :: rest =>
    if rest ≠ [] ∧ rest.all Char.isDigit then Except.ok (digitsToNat rest)
    else Except.error ParamErr.atoiSyntax
  | '-' :: rest =>
    if rest ≠ [] ∧ rest.all Char.isDigit then Except.ok (-(digitsToNat rest : Int))
    else Except.error ParamErr.atoiSyntax
  | cs =>
    if cs ≠ [] ∧ cs.all Char.isDigit then Except.ok (digitsToNat cs)
    else Except.error ParamErr.atoiSyntax

/-- extractPathParameters models the Go function of the same name: split
the URL path on `/`, take segment index 2, and parse it with `Atoi`. -/
def extractPathParameters (path : String) : Except ParamErr Int :=
  let pathSegments := (splitSlash path.toList).map (fun cs => String.mk cs)
  match getNthPathSegment pathSegments 2 with
  | Except.error e => Except.error e
  | Except.ok idStr => atoi idStr

/-- HttpResponse records the status code written by a handler and the JSON
item body when one is encoded (error texts such as `Not found` are carried
by the status alone). -/
structure HttpResponse where
  status : Nat
  body : Option Item
deriving DecidableEq, Repr

/-- FileOp is one file access performed by a handler, used to state that a
request path did or did not touch the backing file. -/
inductive FileOp
  | fsRead
  | fsWrite
deriving DecidableEq, Repr

/-- HandlerOut is everything observable about one handler call: the HTTP
response, the file state afterwards, and the trace of file operations. -/
structure HandlerOut where
  resp : HttpResponse
  fs : Option FileData
  ops : List FileOp
deriving DecidableEq, Repr

/-- dictGetD models a Go map read without the presence check (`m[k]`),
which yields the zero value `Item{0, ""}` when the key is absent. -/
def dictGetD (d : ItemDict) (k : Int) : Item :=
  (dictLookup d k).getD ⟨0, ""⟩

/-- getItem models the `getItem` handler: parse the id (400 on failure,
before any file access), load the collection (500 on failure), then answer
404 when the id is absent and 200 with the encoded item when present. -/
def getItem (path : String) (fs : Option FileData) : HandlerOut :=
  match extractPathParameters path with
  | Except.error _ => ⟨⟨400, none⟩, fs, []⟩
  | Except.ok idv =>
    match readJsonFile fs with
    | Except.error _ => ⟨⟨500, none⟩, fs, [FileOp.fsRead]⟩
    | Except.ok loadedItems =>
      match dictLookup loadedItems idv with
      | none => ⟨⟨404, none⟩, fs, [FileOp.fsRead]⟩
      | some _ => ⟨⟨200, some (dictGetD loadedItems idv)⟩, fs, [FileOp.fsRead]⟩

/-- deleteItem models the `deleteItem` handler: parse the id (400 on
failure, before any file access), load under the `DatabaseMutex` (500 on
failure), 404 without writing when the id is absent, otherwise delete the
entry, rewrite the file (the Go code ignores the write's error value) and
answer 204 with no body. -/
def deleteItem (path : String) (fs : Option FileData) : HandlerOut :=
  match extractPathParameters path with
  | Except.error _ => ⟨⟨400, none⟩, fs, []⟩
  | Except.ok idv =>
    match readJsonFile fs with
    | Except.error _ => ⟨⟨500, none⟩, fs, [FileOp.fsRead]⟩
    | Except.ok loadedItems =>
      match dictLookup loadedItems idv with
      | none => ⟨⟨404, none⟩, fs, [FileOp.fsRead]⟩
      | some _ =>
        let wr := writeJsonFile (dictErase loadedItems idv) fs
        ⟨⟨204, none⟩, wr.2, [FileOp.fsRead, FileOp.fsWrite]⟩

/-- postItem models the `postItem` handler: decode the body (400 on
failure, before any file access or lock), load under the `DatabaseMutex`
(500 on failure), store the item under the body's id (overwriting any
existing entry), rewrite the file (the Go code ignores the write's error
value) and answer 200 with the stored item `loadedItems[newItem.ID]`. -/
def postItem (body : Option Item) (fs : Option FileData) : HandlerOut :=
  match body with
  | none => ⟨⟨400, none⟩, fs, []⟩
  | some newItem =>
    match readJsonFile fs with
    | Except.error _ => ⟨⟨500, none⟩, fs, [FileOp.fsRead]⟩
    | Except.ok loadedItems =>
      let updated := dictInsert loadedItems newItem
      let wr := writeJsonFile updated fs
      ⟨⟨200, some (dictGetD updated newItem.ID)⟩, wr.2, [FileOp.fsRead, FileOp.fsWrite]⟩

/-- PC is the program counter of one mutating request inside `postItem`:
acquire the `DatabaseMutex`, load the collection, store the new item and
save, release the mutex (the deferred unlock), done. -/
inductive PC
  | acquire
  | load
  | save
  | release
  | done
deriving DecidableEq, Repr

/-- ThreadState is one in-flight mutating request: its program counter and
the snapshot `loadedItems` it obtained from `ReadJsonFile`. -/
structure ThreadState where
  pc : PC
  snap : ItemDict
deriving DecidableEq, Repr

/-- ConcState is the shared state of two concurrent `postItem` requests:
the stored collection (the parsed backing file), the `DatabaseMutex`
(`none` when free, otherwise the holder's thread id), and both threads. -/
structure ConcState where
  store : ItemDict
  lock : Option Bool
  t0 : ThreadState
  t1 : ThreadState
deriving DecidableEq, Repr

/-- concStep runs one atomic step of the chosen thread, exactly following
the body of `postItem`: `DatabaseMutex.Lock()` blocks (stutters) while the
other thread holds the mutex; `ReadJsonFile` snapshots the store;
`loadedItems[newItem.ID] = newItem; WriteJsonFile(&loadedItems)` replaces
the store by the updated snapshot; the deferred `Unlock()` frees the mutex.
A finished or blocked thread leaves the state unchanged. -/
def concStep (i0 i1 : Item) (s : ConcState) (tid : Bool) : ConcState :=
  match tid with
  | false =>
    match s.t0.pc, s.lock with
    | PC.acquire, none => { s with lock := some false, t0 := { s.t0 with pc := PC.load } }
    | PC.acquire, some _ => s
    | PC.load, _ => { s with t0 := ⟨PC.save, s.store⟩ }
    | PC.save, _ => { s with store := dictInsert s.t0.snap i0, t0 := { s.t0 with pc := PC.release } }
    | PC.release, _ => { s with lock := none, t0 := { s.t0 with pc := PC.done } }
    | PC.done, _ => s
  | true =>
    match s.t1.pc, s.lock with
    | PC.acquire, none => { s with lock := some true, t1 := { s.t1 with pc := PC.load } }
    | PC.acquire, some _ => s
    | PC.load, _ => { s with t1 := ⟨PC.save, s.store⟩ }
    | PC.save, _ => { s with store := dictInsert s.t1.snap i1, t1 := { s.t1 with pc := PC.release } }
    | PC.release, _ => { s with lock := none, t1 := { s.t1 with pc := PC.done } }
    | PC.done, _ => s

/-- concInit is the state before either request has run: the store holds
the initial collection, the mutex is free, both threads are about to lock. -/
def concInit (d : ItemDict) : ConcState :=
  ⟨d, none, ⟨PC.acquire, []⟩, ⟨PC.acquire, []⟩⟩

/-- concRun executes an arbitrary interleaving: the scheduler picks, at
each step, which of the two threads advances. -/
def concRun (i0 i1 : Item) (sched : List Bool) (d : ItemDict) : ConcState :=
  sched.foldl (concStep i0 i1) (concInit d)

/-- Inserting an item makes it retrievable under its own key. -/
theorem dictLookup_insert_self (d : ItemDict) (it : Item) :
    dictLookup (dictInsert d it) it.ID = some it := by
  induction d with
  | nil => simp [dictInsert, dictLookup]
  | cons x rest ih =>
    by_cases h : x.ID = it.ID
    · simp [dictInsert, h, dictLookup]
    · simp [dictInsert, h, dictLookup, ih]

/-- Inserting an item leaves every other key's lookup unchanged. -/
theorem dictLookup_insert_ne (d : ItemDict) (it : Item) (k : Int) (h : k ≠ it.ID) :
    dictLookup (dictInsert d it) k = dictLookup d k := by
  induction d with
  | nil => simp [dictInsert, dictLookup, Ne.symm h]
  | cons x rest ih =>
    by_cases hx : x.ID = it.ID
    · have hxk : x.ID ≠ k := fun hh => h (hh.symm.trans hx)
      simp [dictInsert, hx, dictLookup, Ne.symm h, hxk]
    · simp [dictInsert, hx, dictLookup, ih]

/-- Re-inserting the very same item is a no-op on the dictionary. -/
theorem dictInsert_insert_same (d : ItemDict) (it : Item) :
    dictInsert (dictInsert d it) it = dictInsert d it := by
  induction d with
  | nil => simp [dictInsert]
  | cons x rest ih =>
    by_cases h : x.ID = it.ID
    · simp [dictInsert, h]
    · simp [dictInsert, h, ih]

/-- A key that occurs in an insertion's result is the inserted key or one
of the original keys. -/
theorem mem_keys_insert {d : ItemDict} {it : Item} {k : Int}
    (h : k ∈ (dictInsert d it).map Item.ID) : k = it.ID ∨ k ∈ d.map Item.ID := by
  induction d with
  | nil => simpa [dictInsert] using h
  | cons x rest ih =>
    by_cases hx : x.ID = it.ID
    · simp only [dictInsert, hx, if_pos rfl] at h
      simpa [hx] using h
    · simp only [dictInsert, if_neg hx, List.map_cons, List.mem_cons] at h
      rcases h with h | h
      · exact Or.inr (by simp [h])
      · rcases ih h with h' | h'
        · exact Or.inl h'
        · exact Or.inr (by simp [h'])

/-- Looking up a key that occurs nowhere in the list yields nothing. -/
theorem dictLookup_eq_none_of_not_mem_keys {d : ItemDict} {k : Int}
    (h : k ∉ d.map Item.ID) : dictLookup d k = none := by
  induction d with
  | nil => simp [dictLookup]
  | cons x rest ih =>
    simp only [List.map_cons, List.mem_cons, not_or] at h
    have hxk : x.ID ≠ k := fun hh => h.1 hh.symm
    simp [dictLookup, hxk, ih h.2]

/-- Insertion preserves distinctness of keys. -/
theorem keysNodup_insert {d : ItemDict} (it : Item) (h : KeysNodup d) :
    KeysNodup (dictInsert d it) := by
  induction d with
  | nil => simp [dictInsert, KeysNodup]
  | cons x rest ih =>
    rw [KeysNodup, List.map_cons, List.nodup_cons] at h
    by_cases hx : x.ID = it.ID
    · rw [KeysNodup]
      simp only [dictInsert, if_pos hx, List.map_cons, List.nodup_cons]
      exact ⟨by rw [← hx]; exact h.1, h.2⟩
    · rw [KeysNodup]
      simp only [dictInsert, if_neg hx, List.map_cons, List.nodup_cons]
      refine ⟨fun hmem => ?_, ih h.2⟩
      rcases mem_keys_insert hmem with h' | h'
      · exact hx h'
      · exact h.1 h'

/-- The dictionary `ReadJsonFile` builds always has distinct keys. -/
theorem keysNodup_loadDict (l : List Item) : KeysNodup (loadDict l) := by
  have aux : ∀ (l' : List Item) (acc : ItemDict), KeysNodup acc →
      KeysNodup (l'.foldl dictInsert acc) := by
    intro l'
    induction l' with
    | nil => intro acc h; simpa using h
    | cons a rest ih =>
      intro acc h
      exact ih (dictInsert acc a) (keysNodup_insert a h)
  exact aux l [] (by simp [KeysNodup])

/-- Inserting a fresh key appends the entry at the end. -/
theorem dictInsert_append_of_not_mem (acc : ItemDict) (it : Item)
    (h : it.ID ∉ acc.map Item.ID) : dictInsert acc it = acc ++ [it] := by
  induction acc with
  | nil => simp [dictInsert]
  | cons x rest ih =>
    simp only [List.map_cons, List.mem_cons, not_or] at h
    have hxi : x.ID ≠ it.ID := fun hh => h.1 hh.symm
    simp [dictInsert, hxi, ih h.2]

/-- Folding insertions of entries with globally distinct keys just appends
them in order. -/
theorem foldl_dictInsert_eq_append (l : List Item) :
    ∀ acc : ItemDict, KeysNodup (acc ++ l) → l.foldl dictInsert acc = acc ++ l := by
  induction l with
  | nil => intro acc _; simp
  | cons a rest ih =>
    intro acc h
    have h' := h
    rw [KeysNodup, List.map_append, List.nodup_append] at h'
    have ha : a.ID ∉ acc.map Item.ID := fun hmem => h'.2.2 hmem (by simp)
    have hstep : dictInsert acc a = acc ++ [a] := dictInsert_append_of_not_mem acc a ha
    have hassoc : (acc ++ [a]) ++ rest = acc ++ a :: rest := by simp
    have h2 : KeysNodup ((acc ++ [a]) ++ rest) := by rw [hassoc]; exact h
    rw [List.foldl_cons, hstep, ih (acc ++ [a]) h2, hassoc]

/-- Parsing a JSON array whose entries have distinct keys recovers exactly
that entry list. -/
theorem loadDict_eq_self (l : List Item) (h : KeysNodup l) : loadDict l = l := by
  have := foldl_dictInsert_eq_append l [] (by simpa using h)
  simpa [loadDict] using this

/-- Erasing a key removes it from lookup (distinct keys). -/
theorem dictLookup_erase_self (d : ItemDict) (k : Int) (h : KeysNodup d) :
    dictLookup (dictErase d k) k = none := by
  induction d with
  | nil => simp [dictErase, dictLookup]
  | cons x rest ih =>
    rw [KeysNodup, List.map_cons, List.nodup_cons] at h
    by_cases hx : x.ID = k
    · simp only [dictErase, if_pos hx]
      exact dictLookup_eq_none_of_not_mem_keys (hx ▸ h.1)
    · simp [dictErase, hx, dictLookup, ih h.2]

/-- C2: WriteJsonFile overwrites an existing backing file with the
marshalled entry list of the collection, and for any iteration order the
Go map may have produced (any permutation `l` of the collection `d`),
ReadJsonFile parses that array back into a dictionary with exactly the
same `(id, name)` entries. -/
theorem c2_save_load_round_trip (d l : List Item) (h1 : KeysNodup d) (h2 : l.Perm d) :
    (writeJsonFile d (some (FileData.jsonArray []))).2
        = some (FileData.jsonArray (serializeDict d)) ∧
    readJsonFile (some (FileData.jsonArray l)) = Except.ok l ∧
    l.Perm d := by
  refine ⟨rfl, ?_, h2⟩
  have hl : KeysNodup l := ((h2.map Item.ID).symm).nodup h1
  simp [readJsonFile, loadDict_eq_self l hl]

/-- Witness for C2 at a concrete two-item collection and a reversed
serialization order. -/
theorem c2_save_load_round_trip_witness :
    KeysNodup [Item.mk 1 "a", Item.mk 2 "b"] ∧
    List.Perm [Item.mk 2 "b", Item.mk 1 "a"] [Item.mk 1 "a", Item.mk 2 "b"] ∧
    ((writeJsonFile [Item.mk 1 "a", Item.mk 2 "b"] (some (FileData.jsonArray []))).2
        = some (FileData.jsonArray (serializeDict [Item.mk 1 "a", Item.mk 2 "b"])) ∧
     readJsonFile (some (FileData.jsonArray [Item.mk 2 "b", Item.mk 1 "a"]))
        = Except.ok [Item.mk 2 "b", Item.mk 1 "a"] ∧
     List.Perm [Item.mk 2 "b", Item.mk 1 "a"] [Item.mk 1 "a", Item.mk 2 "b"]) :=
  ⟨by decide, by decide,
   c2_save_load_round_trip [Item.mk 1 "a", Item.mk 2 "b"] [Item.mk 2 "b", Item.mk 1 "a"]
     (by decide) (by decide)⟩

/-- C3: for any request whose path parses to id `idv`, DELETE loads the
collection; when the id is absent it answers 404 and leaves the file
untouched (no write in the trace); when present it answers 204 with no
body and rewrites the file with exactly that entry removed, after which
the id no longer resolves. -/
theorem c3_delete_by_id (path : String) (idv : Int) (l : List Item)
    (hid : extractPathParameters path = Except.ok idv) :
    deleteItem path (some (FileData.jsonArray l)) =
      (match dictLookup (loadDict l) idv with
       | none => ⟨⟨404, none⟩, some (FileData.jsonArray l), [FileOp.fsRead]⟩
       | some _ => ⟨⟨204, none⟩,
           some (FileData.jsonArray (serializeDict (dictErase (loadDict l) idv))),
           [FileOp.fsRead, FileOp.fsWrite]⟩) ∧
    dictLookup (dictErase (loadDict l) idv) idv = none := by
  constructor
  · simp only [deleteItem, hid, readJsonFile]
    cases hcase : dictLookup (loadDict l) idv with
    | none => simp [hcase]
    | some it => simp [hcase, writeJsonFile]
  · exact dictLookup_erase_self (loadDict l) idv (keysNodup_loadDict l)

/-- Witness for C3 at path `/items/1` against the collection
`[{1, a}, {2, b}]`. -/
theorem c3_delete_by_id_witness :
    extractPathParameters "/items/1" = Except.ok 1 ∧
    (deleteItem "/items/1" (some (FileData.jsonArray [Item.mk 1 "a", Item.mk 2 "b"])) =
      (match dictLookup (loadDict [Item.mk 1 "a", Item.mk 2 "b"]) 1 with
       | none => ⟨⟨404, none⟩, some (FileData.jsonArray [Item.mk 1 "a", Item.mk 2 "b"]),
           [FileOp.fsRead]⟩
       | some _ => ⟨⟨204, none⟩,
           some (FileData.jsonArray
             (serializeDict (dictErase (loadDict [Item.mk 1 "a", Item.mk 2 "b"]) 1))),
           [FileOp.fsRead, FileOp.fsWrite]⟩) ∧
     dictLookup (dictErase (loadDict [Item.mk 1 "a", Item.mk 2 "b"]) 1) 1 = none) :=
  ⟨by decide, c3_delete_by_id "/items/1" 1 [Item.mk 1 "a", Item.mk 2 "b"] (by decide)⟩

/-- C4: a malformed POST body yields 400 with no file access and no state
change; a well-formed body `{id, name}` stores the item keyed by the
body's id (overwriting any existing entry with that id, with no error),
rewrites the file, and answers 200 with the stored item. -/
theorem c4_upsert_postcondition (it : Item) (l : List Item) :
    postItem none (some (FileData.jsonArray l)) =
      ⟨⟨400, none⟩, some (FileData.jsonArray l), []⟩ ∧
    postItem (some it) (some (FileData.jsonArray l)) =
      ⟨⟨200, some it⟩,
       some (FileData.jsonArray (serializeDict (dictInsert (loadDict l) it))),
       [FileOp.fsRead, FileOp.fsWrite]⟩ ∧
    dictLookup (dictInsert (loadDict l) it) it.ID = some it := by
  refine ⟨rfl, ?_, dictLookup_insert_self _ _⟩
  simp [postItem, readJsonFile, writeJsonFile, dictGetD, dictLookup_insert_self]

/-- C6: when the parsed id is absent from the loaded collection, GET
answers exactly 404 — no crash, no success body, no other error class —
and does not change the file. -/
theorem c6_fetch_unknown (path : String) (idv : Int) (l : List Item)
    (hid : extractPathParameters path = Except.ok idv)
    (habs : dictLookup (loadDict l) idv = none) :
    getItem path (some (FileData.jsonArray l)) =
      ⟨⟨404, none⟩, some (FileData.jsonArray l), [FileOp.fsRead]⟩ := by
  simp [getItem, hid, readJsonFile, habs]

/-- Witness for C6: `GET /items/5` against the collection `[{1, a}]`. -/
theorem c6_fetch_unknown_witness :
    extractPathParameters "/items/5" = Except.ok 5 ∧
    dictLookup (loadDict [Item.mk 1 "a"]) 5 = none ∧
    getItem "/items/5" (some (FileData.jsonArray [Item.mk 1 "a"])) =
      ⟨⟨404, none⟩, some (FileData.jsonArray [Item.mk 1 "a"]), [FileOp.fsRead]⟩ :=
  ⟨by decide, by decide, c6_fetch_unknown "/items/5" 5 [Item.mk 1 "a"] (by decide) (by decide)⟩

/-- C7: posting the same item twice leaves exactly the file state that
posting it once produces, for every starting collection on disk. -/
theorem c7_upsert_idempotent (it : Item) (l : List Item) :
    (postItem (some it) (postItem (some it) (some (FileData.jsonArray l))).fs).fs =
      (postItem (some it) (some (FileData.jsonArray l))).fs := by
  have h1 : (postItem (some it) (some (FileData.jsonArray l))).fs
      = some (FileData.jsonArray (dictInsert (loadDict l) it)) := by
    simp [postItem, readJsonFile, writeJsonFile, serializeDict]
  rw [h1]
  have hnd : KeysNodup (dictInsert (loadDict l) it) :=
    keysNodup_insert it (keysNodup_loadDict l)
  simp [postItem, readJsonFile, writeJsonFile, serializeDict,
        loadDict_eq_self _ hnd, dictInsert_insert_same]

/-- C8: whenever ReadJsonFile fails (file absent, zero-byte, or
malformed), every handler answers 500, performs no write, and leaves the
file state unchanged. -/
theorem c8_load_failure_atomic (path : String) (idv : Int) (b : Item)
    (fs : Option FileData) (e : DbError)
    (hid : extractPathParameters path = Except.ok idv)
    (hfail : readJsonFile fs = Except.error e) :
    postItem (some b) fs = ⟨⟨500, none⟩, fs, [FileOp.fsRead]⟩ ∧
    deleteItem path fs = ⟨⟨500, none⟩, fs, [FileOp.fsRead]⟩ ∧
    getItem path fs = ⟨⟨500, none⟩, fs, [FileOp.fsRead]⟩ := by
  refine ⟨?_, ?_, ?_⟩ <;> simp [postItem, deleteItem, getItem, hid, hfail]

/-- Witness for C8 at path `/items/1` against a malformed backing file. -/
theorem c8_load_failure_atomic_witness :
    extractPathParameters "/items/1" = Except.ok 1 ∧
    readJsonFile (some FileData.malformed) = Except.error DbError.unmarshalErr ∧
    (postItem (some (Item.mk 1 "a")) (some FileData.malformed) =
       ⟨⟨500, none⟩, some FileData.malformed, [FileOp.fsRead]⟩ ∧
     deleteItem "/items/1" (some FileData.malformed) =
       ⟨⟨500, none⟩, some FileData.malformed, [FileOp.fsRead]⟩ ∧
     getItem "/items/1" (some FileData.malformed) =
       ⟨⟨500, none⟩, some FileData.malformed, [FileOp.fsRead]⟩) :=
  ⟨by decide, by decide,
   c8_load_failure_atomic "/items/1" 1 (Item.mk 1 "a") (some FileData.malformed)
     DbError.unmarshalErr (by decide) (by decide)⟩

/-- C9: when the id path segment does not parse as an integer, GET and
DELETE answer 400 with an empty file-operation trace — the backing file is
neither read nor written — and the file state is unchanged. -/
theorem c9_invalid_id_rejected (path : String) (e : ParamErr) (fs : Option FileData)
    (hid : extractPathParameters path = Except.error e) :
    getItem path fs = ⟨⟨400, none⟩, fs, []⟩ ∧
    deleteItem path fs = ⟨⟨400, none⟩, fs, []⟩ := by
  constructor <;> simp [getItem, deleteItem, hid]

/-- Witness for C9 at the spec's example request `GET /abc`. -/
theorem c9_invalid_id_rejected_witness :
    extractPathParameters "/abc" = Except.error ParamErr.indexOutOfRange ∧
    (getItem "/abc" (some (FileData.jsonArray [Item.mk 1 "a"])) =
       ⟨⟨400, none⟩, some (FileData.jsonArray [Item.mk 1 "a"]), []⟩ ∧
     deleteItem "/abc" (some (FileData.jsonArray [Item.mk 1 "a"])) =
       ⟨⟨400, none⟩, some (FileData.jsonArray [Item.mk 1 "a"]), []⟩) :=
  ⟨by decide,
   c9_invalid_id_rejected "/abc" ParamErr.indexOutOfRange
     (some (FileData.jsonArray [Item.mk 1 "a"])) (by decide)⟩

/-- C10: WriteJsonFile on an absent backing file returns the open error
and creates nothing — the file system is still in the absent state. -/
theorem c10_write_missing_file (d : ItemDict) :
    writeJsonFile d none = (Except.error DbError.openErr, none) := rfl

/-- C5 evidence: startup on an absent file creates the zero-byte file
`os.Create` produces, and ReadJsonFile on that file fails with the
unmarshal error — it does not return the empty collection. -/
theorem c5_startup_creates_unparseable_file :
    mainStartup none = some FileData.emptyFile ∧
    readJsonFile (mainStartup none) = Except.error DbError.unmarshalErr :=
  ⟨rfl, rfl⟩

/-- inCrit states that a thread is inside the `DatabaseMutex` critical
section, between its successful `Lock()` and the deferred `Unlock()`. -/
def inCrit (pc : PC) : Prop := pc = PC.load ∨ pc = PC.save ∨ pc = PC.release

/-- presentIn states that an item is stored under its own id. -/
def presentIn (it : Item) (d : ItemDict) : Prop := dictLookup d it.ID = some it

/-- ConcInv is the inductive invariant of the two-thread machine: the
mutex is held by a thread exactly while that thread is in its critical
section; a thread that has saved but not yet released sees its own item in
the store; and a finished thread's item survives — in the store, or in the
other thread's snapshot when that thread is between its load and its
save. -/
structure ConcInv (i0 i1 : Item) (s : ConcState) : Prop where
  lock0 : s.lock = some false ↔ inCrit s.t0.pc
  lock1 : s.lock = some true ↔ inCrit s.t1.pc
  rel0 : s.t0.pc = PC.release → presentIn i0 s.store
  rel1 : s.t1.pc = PC.release → presentIn i1 s.store
  done0 : s.t0.pc = PC.done →
    (if s.t1.pc = PC.save then presentIn i0 s.t1.snap else presentIn i0 s.store)
  done1 : s.t1.pc = PC.done →
    (if s.t0.pc = PC.save then presentIn i1 s.t0.snap else presentIn i1 s.store)

/-- One interleaving step of either thread preserves the invariant. -/
theorem concInv_step (i0 i1 : Item) (hne : i0.ID ≠ i1.ID) (s : ConcState) (tid : Bool)
    (h : ConcInv i0 i1 s) : ConcInv i0 i1 (concStep i0 i1 s tid) := by
  obtain ⟨store, lock, ⟨pc0, snap0⟩, ⟨pc1, snap1⟩⟩ := s
  obtain ⟨hl0, hl1, hr0, hr1, hd0, hd1⟩ := h
  cases tid
  case false =>
    cases pc0
    case acquire =>
      cases lock
      case none =>
        show ConcInv i0 i1 ⟨store, some false, ⟨PC.load, snap0⟩, ⟨pc1, snap1⟩⟩
        refine ⟨?_, ?_, ?_, ?_, ?_, ?_⟩
        · simp [inCrit]
        · exact ⟨fun hh => absurd hh (by simp), fun hh => absurd (hl1.mpr hh) (by simp)⟩
        · intro hh; simp at hh
        · exact hr1
        · intro hh; simp at hh
        · intro hh; simpa using hd1 hh
      case some b =>
        exact ⟨hl0, hl1, hr0, hr1, hd0, hd1⟩
    case load =>
      have hlock : lock = some false := hl0.mpr (Or.inl rfl)
      subst hlock
      show ConcInv i0 i1 ⟨store, some false, ⟨PC.save, store⟩, ⟨pc1, snap1⟩⟩
      refine ⟨?_, ?_, ?_, ?_, ?_, ?_⟩
      · simp [inCrit]
      · exact ⟨fun hh => absurd hh (by simp), fun hh => absurd (hl1.mpr hh) (by simp)⟩
      · intro hh; simp at hh
      · exact hr1
      · intro hh; simp at hh
      · intro hh; simpa using hd1 hh
    case save =>
      have hlock : lock = some false := hl0.mpr (Or.inr (Or.inl rfl))
      subst hlock
      show ConcInv i0 i1 ⟨dictInsert snap0 i0, some false, ⟨PC.release, snap0⟩, ⟨pc1, snap1⟩⟩
      refine ⟨?_, ?_, ?_, ?_, ?_, ?_⟩
      · simp [inCrit]
      · exact ⟨fun hh => absurd hh (by simp), fun hh => absurd (hl1.mpr hh) (by simp)⟩
      · intro _; exact dictLookup_insert_self snap0 i0
      · intro hh; exact absurd (hl1.mpr (Or.inr (Or.inr hh))) (by simp)
      · intro hh; simp at hh
      · intro hh
        have hbefore : presentIn i1 snap0 := by simpa using hd1 hh
        have hkeep : dictLookup (dictInsert snap0 i0) i1.ID = dictLookup snap0 i1.ID :=
          dictLookup_insert_ne snap0 i0 i1.ID (Ne.symm hne)
        simpa [presentIn, hkeep] using hbefore
    case release =>
      have hlock : lock = some false := hl0.mpr (Or.inr (Or.inr rfl))
      subst hlock
      show ConcInv i0 i1 ⟨store, none, ⟨PC.done, snap0⟩, ⟨pc1, snap1⟩⟩
      refine ⟨?_, ?_, ?_, ?_, ?_, ?_⟩
      · exact ⟨fun hh => absurd hh (by simp), fun hh => by simp [inCrit] at hh⟩
      · exact ⟨fun hh => absurd hh (by simp), fun hh => absurd (hl1.mpr hh) (by simp)⟩
      · intro hh; simp at hh
      · exact hr1
      · intro _
        have hns : pc1 ≠ PC.save := fun hs => absurd (hl1.mpr (Or.inr (Or.inl hs))) (by simp)
        rw [if_neg hns]
        exact hr0 rfl
      · intro hh; simpa using hd1 hh
    case done =>
      exact ⟨hl0, hl1, hr0, hr1, hd0, hd1⟩
  case true =>
    cases pc1
    case acquire =>
      cases lock
      case none =>
        show ConcInv i0 i1 ⟨store, some true, ⟨pc0, snap0⟩, ⟨PC.load, snap1⟩⟩
        refine ⟨?_, ?_, ?_, ?_, ?_, ?_⟩
        · exact ⟨fun hh => absurd hh (by simp), fun hh => absurd (hl0.mpr hh) (by simp)⟩
        · simp [inCrit]
        · exact hr0
        · intro hh; simp at hh
        · intro hh; simpa using hd0 hh
        · intro hh; simp at hh
      case some b =>
        exact ⟨hl0, hl1, hr0, hr1, hd0, hd1⟩
    case load =>
      have hlock : lock = some true := hl1.mpr (Or.inl rfl)
      subst hlock
      show ConcInv i0 i1 ⟨store, some true, ⟨pc0, snap0⟩, ⟨PC.save, store⟩⟩
      refine ⟨?_, ?_, ?_, ?_, ?_, ?_⟩
      · exact ⟨fun hh => absurd hh (by simp), fun hh => absurd (hl0.mpr hh) (by simp)⟩
      · simp [inCrit]
      · exact hr0
      · intro hh; simp at hh
      · intro hh; simpa using hd0 hh
      · intro hh; simp at hh
    case save =>
      have hlock : lock = some true := hl1.mpr (Or.inr (Or.inl rfl))
      subst hlock
      show ConcInv i0 i1 ⟨dictInsert snap1 i1, some true, ⟨pc0, snap0⟩, ⟨PC.release, snap1⟩⟩
      refine ⟨?_, ?_, ?_, ?_, ?_, ?_⟩
      · exact ⟨fun hh => absurd hh (by simp), fun hh => absurd (hl0.mpr hh) (by simp)⟩
      · simp [inCrit]
      · intro hh; exact absurd (hl0.mpr (Or.inr (Or.inr hh))) (by simp)
      · intro _; exact dictLookup_insert_self snap1 i1
      · intro hh
        have hbefore : presentIn i0 snap1 := by simpa using hd0 hh
        have hkeep : dictLookup (dictInsert snap1 i1) i0.ID = dictLookup snap1 i0.ID :=
          dictLookup_insert_ne snap1 i1 i0.ID hne
        simpa [presentIn, hkeep] using hbefore
      · intro hh; simp at hh
    case release =>
      have hlock : lock = some true := hl1.mpr (Or.inr (Or.inr rfl))
      subst hlock
      show ConcInv i0 i1 ⟨store, none, ⟨pc0, snap0⟩, ⟨PC.done, snap1⟩⟩
      refine ⟨?_, ?_, ?_, ?_, ?_, ?_⟩
      · exact ⟨fun hh => absurd hh (by simp), fun hh => absurd (hl0.mpr hh) (by simp)⟩
      · exact ⟨fun hh => absurd hh (by simp), fun hh => by simp [inCrit] at hh⟩
      · exact hr0
      · intro hh; simp at hh
      · intro hh; simpa using hd0 hh
      · intro _
        have hns : pc0 ≠ PC.save := fun hs => absurd (hl0.mpr (Or.inr (Or.inl hs))) (by simp)
        rw [if_neg hns]
        exact hr1 rfl
    case done =>
      exact ⟨hl0, hl1, hr0, hr1, hd0, hd1⟩

/-- The initial state satisfies the invariant. -/
theorem concInv_init (i0 i1 : Item) (d : ItemDict) : ConcInv i0 i1 (concInit d) := by
  refine ⟨?_, ?_, ?_, ?_, ?_, ?_⟩ <;> simp [concInit, inCrit]

/-- Every interleaving keeps the invariant. -/
theorem concInv_run (i0 i1 : Item) (hne : i0.ID ≠ i1.ID) (sched : List Bool) (d : ItemDict) :
    ConcInv i0 i1 (concRun i0 i1 sched d) := by
  have aux : ∀ (sch : List Bool) (s : ConcState), ConcInv i0 i1 s →
      ConcInv i0 i1 (sch.foldl (concStep i0 i1) s) := by
    intro sch
    induction sch with
    | nil => intro s hs; simpa using hs
    | cons t rest ih => intro s hs; exact ih _ (concInv_step i0 i1 hne s t hs)
  exact aux sched (concInit d) (concInv_init i0 i1 d)

/-- C1: two concurrent upserts to different ids, each running its
load-mutate-save sequence inside the `DatabaseMutex` critical section
exactly as `postItem` does, leave both items in the stored collection
under every scheduler interleaving after which both requests have
completed — neither overwrites the other's entry. -/
theorem c1_lost_update_prevention (i0 i1 : Item) (sched : List Bool) (d : ItemDict)
    (hne : i0.ID ≠ i1.ID)
    (h0 : (concRun i0 i1 sched d).t0.pc = PC.done)
    (h1 : (concRun i0 i1 sched d).t1.pc = PC.done) :
    dictLookup (concRun i0 i1 sched d).store i0.ID = some i0 ∧
    dictLookup (concRun i0 i1 sched d).store i1.ID = some i1 := by
  have hinv := concInv_run i0 i1 hne sched d
  have ha := hinv.done0 h0
  have hb := hinv.done1 h1
  rw [h1, if_neg (by decide : ¬(PC.done = PC.save))] at ha
  rw [h0, if_neg (by decide : ¬(PC.done = PC.save))] at hb
  exact ⟨ha, hb⟩

/-- Witness for C1: items `{1, a}` and `{2, b}` from the empty collection,
under the schedule that runs thread 0's whole request and then thread
1's. -/
theorem c1_lost_update_prevention_witness :
    (Item.mk 1 "a").ID ≠ (Item.mk 2 "b").ID ∧
    (concRun (Item.mk 1 "a") (Item.mk 2 "b")
        [false, false, false, false, true, true, true, true] []).t0.pc = PC.done ∧
    (concRun (Item.mk 1 "a") (Item.mk 2 "b")
        [false, false, false, false, true, true, true, true] []).t1.pc = PC.done ∧
    (dictLookup (concRun (Item.mk 1 "a") (Item.mk 2 "b")
        [false, false, false, false, true, true, true, true] []).store (Item.mk 1 "a").ID
      = some (Item.mk 1 "a") ∧
     dictLookup (concRun (Item.mk 1 "a") (Item.mk 2 "b")
        [false, false, false, false, true, true, true, true] []).store (Item.mk 2 "b").ID
      = some (Item.mk 2 "b")) :=
  ⟨by decide, by decide, by decide,
   c1_lost_update_prevention (Item.mk 1 "a") (Item.mk 2 "b")
     [false, false, false, false, true, true, true, true] []
     (by decide) (by decide) (by decide)⟩

end GoApi
